import Mathlib

/-!
Verification of the OpenDeepResearcher-API research engine.

A shallow embedding of `app/researcher.py` (class `ResearchEngine`) in Lean 4.

External effects are modelled as oracle inputs:
* the LLM provider (`call_llm`) is a source of `Option String` responses, one
  per call site (`none` models a provider failure / exception / falsy response);
* Python's `eval` of an extracted list literal is an oracle
  `String → Option PyVal` (`none` models an `eval` exception);
* the search backend and the Jina fetcher are oracles (the code maps every
  failure of theirs to `[]` / `""`).

Python string operations (`replace`, `strip`, `lower`, `split`, `find`,
`rfind`, slicing) are implemented over `List Char` by structural recursion so
all definitions evaluate inside the kernel. Python values produced by `eval`
are modelled by the inductive `PyVal`. Exceptions that the Python code does
*not* catch are modelled with `Except Unit`; anticipated failures are plain
values, exactly as in the source.
-/

/-! ## Python string primitives -/

/-- Python's default whitespace set for `str.strip` / `str.split`. -/
def pyIsSpace (c : Char) : Bool :=
  c = ' ' || c = '\t' || c = '\n' || c = '\x0d' || c = '\x0b' || c = '\x0c'

/-- One step per character, fuel-indexed core of Python `str.replace`:
replace non-overlapping occurrences of `pat` (assumed non-empty) left to
right. -/
def replaceAux (pat rep : List Char) : Nat → List Char → List Char
  | _, [] => []
  | 0, s => s
  | Nat.succ fuel, c :: cs =>
    if pat.isPrefixOf (c :: cs) then
      rep ++ replaceAux pat rep fuel ((c :: cs).drop pat.length)
    else
      c :: replaceAux pat rep fuel cs

/-- Python `s.replace(pat, rep)` for a non-empty `pat`. -/
def pyReplace (s pat rep : String) : String :=
  String.mk (replaceAux pat.toList rep.toList s.toList.length s.toList)

/-- Python `s.strip()`: drop leading and trailing whitespace. -/
def pyStrip (s : String) : String :=
  String.mk
    (((s.toList.dropWhile pyIsSpace).reverse.dropWhile pyIsSpace).reverse)

/-- Python `s.lower()` (ASCII case folding suffices for the tokens the code
compares against). -/
def pyLower (s : String) : String :=
  String.mk (s.toList.map Char.toLower)

/-- Core of Python `s.split()` (no argument): whitespace-separated tokens,
empty tokens suppressed; `acc` holds the current token reversed. -/
def splitWsAux : List Char → List Char → List (List Char)
  | acc, [] => if acc.isEmpty then [] else [acc.reverse]
  | acc, c :: cs =>
    if pyIsSpace c then
      if acc.isEmpty then splitWsAux [] cs
      else acc.reverse :: splitWsAux [] cs
    else splitWsAux (c :: acc) cs

/-- Python `s.split()`. -/
def pySplitWs (s : String) : List String :=
  (splitWsAux [] s.toList).map String.mk

/-- Python `s.startswith(p)`. -/
def pyStartswith (s p : String) : Bool :=
  p.toList.isPrefixOf s.toList

/-- Python `s.find(c)` for a single character (`none` for `-1`). -/
def pyFind (s : String) (c : Char) : Option Nat :=
  s.toList.findIdx? (· = c)

/-- Python `s.rfind(c)` for a single character (`none` for `-1`). -/
def pyRfind (s : String) (c : Char) : Option Nat :=
  match s.toList.reverse.findIdx? (· = c) with
  | none => none
  | some r => some (s.toList.length - 1 - r)

/-- Python slice `s[start:stop]` (for `0 ≤ start`, `0 ≤ stop`). -/
def pySlice (s : String) (start stop : Nat) : String :=
  String.mk ((s.toList.drop start).take (stop - start))

/-! ## Python values -/

/-- A (simplified) Python value, as produced by `eval` on model output:
a string, a list of values, or anything else. -/
inductive PyVal where
  | str (s : String)
  | list (l : List PyVal)
  | other

/-- Predicate `PyVal.isStr v` models `isinstance(v, str)`. -/
def PyVal.isStr : PyVal → Bool
  | .str _ => true
  | _ => false

/-- Projection `PyVal.asStr v` reads the string out of a `PyVal.str`; arbitrary on
non-strings (only used after `isinstance` checks have passed). -/
def PyVal.asStr : PyVal → String
  | .str s => s
  | _ => ""

/-! ## LLM-facing helpers of `ResearchEngine` -/

/-- Model of `ResearchEngine.call_llm`: returns the provider response if it is truthy,
`None` otherwise (all provider exceptions are caught and mapped to `None`).
A Python string is falsy exactly when it is empty. -/
def call_llm (response : Option String) : Option String :=
  match response with
  | none => none
  | some s => if s = "" then none else some s

/-- Model of `ResearchEngine._clean_llm_response`: remove code-block markers and strip
surrounding whitespace. (The `response is None` branch is unreachable from
the class's call sites, which pass a non-`None` `call_llm` result.) -/
def clean_llm_response (response : String) : String :=
  pyStrip (pyReplace (pyReplace response "```python" "") "```" "")

/-- The slice `cleaned[start:end]` computed by `generate_search_queries`,
where `start = cleaned.find('[')` and `end = cleaned.rfind(']') + 1`; `none`
when either bracket is missing (`start == -1 or end == 0`). -/
def bracketSlice (cleaned : String) : Option String :=
  match pyFind cleaned '[', pyRfind cleaned ']' with
  | some start, some rb => some (pySlice cleaned start (rb + 1))
  | _, _ => none

/-- Model of `ResearchEngine.generate_search_queries`: clean the LLM response, extract
the bracketed slice, `eval` it, and if the result is a non-empty list of
strings return its first 4 elements; every failure path returns `[]`.
`evalFn` is the `eval` oracle, `response` the raw provider response. -/
def generate_search_queries (evalFn : String → Option PyVal)
    (response : Option String) : List String :=
  match call_llm response with
  | none => []
  | some r =>
    match bracketSlice (clean_llm_response r) with
    | none => []
    | some listStr =>
      match evalFn listStr with
      | some (PyVal.list qs) =>
        if qs.length > 0 ∧ qs.all PyVal.isStr then
          (qs.map PyVal.asStr).take 4
        else []
      | _ => []

/-- Model of `ResearchEngine.get_new_search_queries`: `none` models Python `None`
(the `<done>` completion signal); `some []` models the empty-list return used
for every parse failure; `some qs` (non-empty `qs`) models a successful parse.
The parsed list is *not* checked to contain only strings and is *not*
trimmed to 4 elements. -/
def get_new_search_queries (evalFn : String → Option PyVal)
    (response : Option String) : Option (List PyVal) :=
  match call_llm response with
  | none => some []
  | some r =>
    let cleaned := clean_llm_response r
    if cleaned = "<done>" then none
    else
      match evalFn cleaned with
      | some (PyVal.list qs) => if qs.length > 0 then some qs else some []
      | _ => some []

/-- Model of `ResearchEngine.is_page_useful`: on a provider failure default to `"Yes"`;
otherwise clean, strip, lower-case and whitespace-split the response and look
at its first token (`"no"` ↦ `"No"`, anything else ↦ `"Yes"`).
`Except.error ()` models the uncaught `IndexError` raised by `split()[0]`
when the cleaned response contains no token at all. -/
def is_page_useful (response : Option String) : Except Unit String :=
  match call_llm response with
  | none => Except.ok "Yes"
  | some r =>
    match pySplitWs (pyLower (pyStrip (clean_llm_response r))) with
    | [] => Except.error ()
    | first :: _ => Except.ok (if first = "no" then "No" else "Yes")

/-- Model of `ResearchEngine.extract_relevant_context`: `none` on provider failure, on
the explicit "No relevant information found." sentinel, and on any response
that does not start with a bullet `-`; otherwise the stripped response. -/
def extract_relevant_context (response : Option String) : Option String :=
  match call_llm response with
  | none => none
  | some r =>
    let context := pyStrip r
    if context = "No relevant information found." then none
    else if ¬ pyStartswith context "-" then none
    else some context

/-- The `## Research Methodology` section appended by
`ResearchEngine.generate_final_report` (a fixed template mentioning the user
query). -/
def methodologySection (user_query : String) : String :=
  "\n\n## Research Methodology\n" ++
  "This report is based on analysis of multiple sources examining " ++
  user_query ++ ". " ++
  "The research process involved:\n" ++
  "- Systematic search and analysis of relevant publications and studies\n" ++
  "- Evaluation of source credibility and relevance\n" ++
  "- Synthesis of findings from multiple perspectives\n" ++
  "- Focus on evidence-based conclusions\n"

/-- Model of `ResearchEngine.generate_final_report`: the completion capability is
consulted unconditionally (the accumulated contexts only shape the prompt,
which the response oracle absorbs); a failed call yields the fixed fallback
sentence, a successful one yields the response plus the methodology section. -/
def generate_final_report (user_query : String) (response : Option String) :
    String :=
  match call_llm response with
  | none => "Unable to generate report due to insufficient research findings."
  | some r => r ++ methodologySection user_query

/-! ## Link deduplication (`research`, lines 393–399)

The code builds an insertion-ordered dict `unique_links` mapping each link to
`queries[idx]` for the first `(idx, links)` pair of `enumerate(search_results)`
that contains it.  We model the dict as an association list in insertion
order; `α` is the type of the stored query (a string for the initial queries,
an arbitrary `PyVal` after a continuation step). -/

/-- Model of `if link not in unique_links: unique_links[link] = query_used`. -/
def insertLink {α : Type} (acc : List (String × α)) (q : α) (link : String) :
    List (String × α) :=
  if acc.any (fun p => p.1 == link) then acc else acc ++ [(link, q)]

/-- The inner `for link in links` loop for one query's result list. -/
def addQueryLinks {α : Type} (acc : List (String × α)) (q : α)
    (links : List String) : List (String × α) :=
  links.foldl (fun a l => insertLink a q l) acc

/-- The full deduplication step over the iteration's
`(query, result list)` pairs. -/
def unique_links {α : Type} (pairs : List (α × List String)) :
    List (String × α) :=
  pairs.foldl (fun a p => addQueryLinks a p.1 p.2) []

/-! ## The research orchestrator (`ResearchEngine.research`) -/

/-- A status event as put on the `status_queue`. The extra keyword fields of
the Python dict that no claim mentions (`queries=`, `count=`, `url=`,
`useful=`, `iteration=`) are omitted; `reportField`/`logsField` model the
`report`/`logs` entries of the final `complete` event. -/
structure Event where
  type : String
  message : String
  reportField : Option String := none
  logsField : Option (List String) := none

/-- The mutable state owned by one execution of `research`: the log buffer,
the (would-be) event stream, the accumulated contexts and every query ever
issued. When no `status_queue` is supplied the code simply never pushes
`events` anywhere; the stream itself is the same. -/
structure RState where
  logs : List String
  events : List Event
  contexts : List String
  allQueries : List PyVal

/-- Model of `send_status`: append the message to the log and the event to the
stream. -/
def sendStatus (type message : String) (s : RState) : RState :=
  { s with
    logs := s.logs ++ [message]
    events := s.events ++ [{ type := type, message := message }] }

/-- The external world of one research run. LLM responses are keyed by the
call site and the data the prompt depends on: the relevance filter by the
fetched page text, the extractor by the provenance query and the page text,
and the continuation planner by the iteration index (its prompt inputs —
`all_queries` and `contexts` — are determined by the run up to that
iteration). -/
structure Oracle where
  evalFn : String → Option PyVal
  initialResponse : Option String
  searchFn : PyVal → List String
  fetchFn : String → String
  usefulResponse : String → Option String
  extractResponse : PyVal → String → Option String
  planResponse : Nat → Option String
  reportResponse : Option String

/-- Processing of one deduplicated link inside an iteration: fetch, skip on
empty content, filter, and extract when useful. Returns the updated state and
the iteration's context batch; `Except.error` propagates the uncaught
exception of `is_page_useful`. -/
def processLink (o : Oracle) (link : String) (searchQuery : PyVal)
    (s : RState) (iterCtxs : List String) :
    Except Unit (RState × List String) :=
  let s := sendStatus "processing" ("Processing: " ++ link) s
  let content := o.fetchFn link
  if content = "" then
    .ok (sendStatus "warning" ("No content retrieved from " ++ link) s,
      iterCtxs)
  else
    match is_page_useful (o.usefulResponse content) with
    | .error e => .error e
    | .ok usefulness =>
      let s := sendStatus "evaluation" ("Page usefulness: " ++ usefulness) s
      if usefulness = "Yes" then
        match extract_relevant_context (o.extractResponse searchQuery content)
          with
        | some context =>
          .ok (sendStatus "context"
            ("Extracted context (preview): " ++ pySlice context 0 100 ++ "...")
            s, iterCtxs ++ [context])
        | none => .ok (s, iterCtxs)
      else .ok (s, iterCtxs)

/-- The `for link, search_query in unique_links.items()` loop. -/
def processLinks (o : Oracle) :
    List (String × PyVal) → RState → List String →
    Except Unit (RState × List String)
  | [], s, ctxs => .ok (s, ctxs)
  | (link, q) :: rest, s, ctxs =>
    match processLink o link q s ctxs with
    | .error e => .error e
    | .ok (s, ctxs) => processLinks o rest s ctxs

/-- One iteration of the research loop: fan out searches, deduplicate,
process every link, merge the context batch, then consult the planner.
The second component is `none` when the loop breaks (planner returned
`None` or a falsy list) and `some qs` when it continues with queries `qs`. -/
def iterationBody (o : Oracle) (queries : List PyVal) (iterIdx : Nat)
    (s : RState) : Except Unit (RState × Option (List PyVal)) :=
  let s := sendStatus "iteration"
    ("\n=== Iteration " ++ toString (iterIdx + 1) ++ " ===") s
  let s := sendStatus "progress" "Executing search queries in parallel" s
  let searchResults := queries.map o.searchFn
  let links := unique_links (queries.zip searchResults)
  let s := sendStatus "links"
    ("Found " ++ toString links.length ++ " unique links") s
  match processLinks o links s [] with
  | .error e => .error e
  | .ok (s, iterCtxs) =>
    let s :=
      if iterCtxs.isEmpty then
        sendStatus "warning" "No useful contexts found in this iteration" s
      else
        sendStatus "progress"
          ("Added " ++ toString iterCtxs.length ++ " new contexts")
          { s with contexts := s.contexts ++ iterCtxs }
    match get_new_search_queries o.evalFn (o.planResponse iterIdx) with
    | none =>
      .ok (sendStatus "progress" "No more queries needed. Generating report..."
        s, none)
    | some [] =>
      .ok (sendStatus "progress" "No more queries needed. Generating report..."
        s, none)
    | some qs =>
      .ok (sendStatus "queries" "New queries for next iteration"
        { s with allQueries := s.allQueries ++ qs }, some qs)

/-- The `for iteration in range(max_iterations)` loop with its `break`:
`remaining` counts the iterations the `range` still allows, `iterIdx` the
zero-based index of the next iteration. -/
def researchLoop (o : Oracle) (queries : List PyVal) (iterIdx : Nat)
    (s : RState) : Nat → Except Unit RState
  | 0 => .ok s
  | Nat.succ rem =>
    match iterationBody o queries iterIdx s with
    | .error e => .error e
    | .ok (s, none) => .ok s
    | .ok (s, some qs) => researchLoop o qs (iterIdx + 1) s rem

/-- What one `research` call returns and the state it ends in.  The Python
coroutine returns `(report, logs)`; `events` is the stream pushed to a
supplied `status_queue`, and `finalContexts` exposes the final accumulated
contexts for specification purposes. -/
structure ResearchResult where
  report : String
  logs : List String
  events : List Event
  finalContexts : List String

/-- The message of the fatal initial-query failure. -/
def failureMessage : String :=
  "LLM provider rate limit exceeded. Please try again later or upgrade to a paid plan."

/-- The state after the `start` and first `progress` events opening every
run (`research`, lines 369–373). -/
def preQueryState (userQuery : String) : RState :=
  sendStatus "progress" "Generating initial search queries..."
    (sendStatus "start" ("Starting research: " ++ userQuery) ⟨[], [], [], []⟩)

/-- The result of the fatal no-initial-queries branch (`research`,
lines 375–378). -/
def failureResult (userQuery : String) : ResearchResult :=
  let s := sendStatus "error" failureMessage (preQueryState userQuery)
  ⟨"Research failed: " ++ failureMessage, s.logs, s.events, s.contexts⟩

/-- The state entering the iteration loop, after the initial queries are
recorded (`research`, lines 380–381). -/
def initState (userQuery : String) (queries : List String) : RState :=
  let s := preQueryState userQuery
  sendStatus "queries" "Generated initial queries"
    { s with allQueries := s.allQueries ++ queries.map PyVal.str }

/-- Report synthesis after loop exit and the final `complete` event
(`research`, lines 438–454): the log gains the last `progress` message, the
`complete` event carries the returned report and logs but its own message is
put on the queue only, never appended to `logs`. -/
def finishResult (o : Oracle) (userQuery : String) (s : RState) :
    ResearchResult :=
  let s := sendStatus "progress" "Generating final research report" s
  let report := generate_final_report userQuery o.reportResponse
  ⟨report, s.logs,
    s.events ++ [{ type := "complete"
                   message := "Research completed successfully"
                   reportField := some report
                   logsField := some s.logs }],
    s.contexts⟩

/-- Model of `ResearchEngine.research`, the orchestrator.  `Except.error`
models an uncaught Python exception escaping the coroutine; the on-disk
markdown dump (`save_research_to_markdown`) is a file-system side effect
outside the model. -/
def research (o : Oracle) (userQuery : String) (maxIterations : Nat) :
    Except Unit ResearchResult :=
  let queries := generate_search_queries o.evalFn o.initialResponse
  if queries.isEmpty then
    .ok (failureResult userQuery)
  else
    match researchLoop o (queries.map PyVal.str) 0
        (initState userQuery queries) maxIterations with
    | .error e => .error e
    | .ok s => .ok (finishResult o userQuery s)

/-! ## Auxiliary definitions for the verification: effect predicates,
concrete oracles and concrete runs -/

/-- Links already present in the (modelled) `unique_links` dict. -/
def linkKeys {α : Type} (acc : List (String × α)) : List String :=
  acc.map Prod.fst

/-- Number of `iteration` events in a stream (one is emitted at the start of
every pass of the research loop). -/
def iterEvents (es : List Event) : Nat :=
  (es.filter (fun e => e.type == "iteration")).length

/-- Effect of one link's processing on the session state: events and logs
grow together by a batch that contains no `complete`, `error` or `iteration`
event, and the accumulated contexts and query memory are untouched. -/
def LinkEffect (s s' : RState) : Prop :=
  (∃ es, s'.events = s.events ++ es
    ∧ s'.logs = s.logs ++ es.map Event.message
    ∧ ∀ e ∈ es, e.type ≠ "complete" ∧ e.type ≠ "error" ∧ e.type ≠ "iteration")
  ∧ s'.contexts = s.contexts ∧ s'.allQueries = s.allQueries

/-- Effect of a whole-state step of the orchestrator: events and logs grow
in lock-step by a batch with no `complete` or `error` event and exactly `k`
`iteration` events, while contexts and query memory grow by appending. -/
def StepEffect (k : Nat) (s s' : RState) : Prop :=
  (∃ es, s'.events = s.events ++ es
    ∧ s'.logs = s.logs ++ es.map Event.message
    ∧ (∀ e ∈ es, e.type ≠ "complete" ∧ e.type ≠ "error")
    ∧ iterEvents es = k)
  ∧ s.contexts <+: s'.contexts ∧ s.allQueries <+: s'.allQueries

/-- Concrete `eval` oracle parsing the literal list of five one-letter
strings, used by the planner round-trip examples. -/
def fiveEval : String → Option PyVal := fun s =>
  if s = "['a','b','c','d','e']" then
    some (.list [.str "a", .str "b", .str "c", .str "d", .str "e"])
  else none

/-- An oracle on which every external call fails: initial query generation
yields nothing. -/
def nullOracle : Oracle where
  evalFn := fun _ => none
  initialResponse := none
  searchFn := fun _ => []
  fetchFn := fun _ => ""
  usefulResponse := fun _ => none
  extractResponse := fun _ _ => none
  planResponse := fun _ => none
  reportResponse := none

/-- An oracle whose relevance filter always answers "No": one query, one
link, fetch succeeds, nothing is ever extracted, the planner stops after
one iteration and report synthesis returns text. -/
def noFilterOracle : Oracle where
  evalFn := fun s => if s = "['q1']" then some (.list [.str "q1"]) else none
  initialResponse := some "['q1']"
  searchFn := fun _ => ["https://example.com/a"]
  fetchFn := fun _ => "page text"
  usefulResponse := fun _ => some "No - irrelevant."
  extractResponse := fun _ _ => none
  planResponse := fun _ => some "<done>"
  reportResponse := some "MODEL REPORT"

/-- The loop state after the single iteration of the `noFilterOracle` run. -/
def noFilterLoopState : RState where
  logs := ["Starting research: topic", "Generating initial search queries...",
    "Generated initial queries", "\n=== Iteration 1 ===",
    "Executing search queries in parallel", "Found 1 unique links",
    "Processing: https://example.com/a", "Page usefulness: No",
    "No useful contexts found in this iteration",
    "No more queries needed. Generating report..."]
  events := [⟨"start", "Starting research: topic", none, none⟩,
    ⟨"progress", "Generating initial search queries...", none, none⟩,
    ⟨"queries", "Generated initial queries", none, none⟩,
    ⟨"iteration", "\n=== Iteration 1 ===", none, none⟩,
    ⟨"progress", "Executing search queries in parallel", none, none⟩,
    ⟨"links", "Found 1 unique links", none, none⟩,
    ⟨"processing", "Processing: https://example.com/a", none, none⟩,
    ⟨"evaluation", "Page usefulness: No", none, none⟩,
    ⟨"warning", "No useful contexts found in this iteration", none, none⟩,
    ⟨"progress", "No more queries needed. Generating report...", none, none⟩]
  contexts := []
  allQueries := [PyVal.str "q1"]

/-- The full result of the `noFilterOracle` run with `max_iterations = 1`. -/
def noFilterResult : ResearchResult where
  report := "MODEL REPORT" ++ methodologySection "topic"
  logs := noFilterLoopState.logs ++ ["Generating final research report"]
  events := noFilterLoopState.events ++
    [⟨"progress", "Generating final research report", none, none⟩,
     ⟨"complete", "Research completed successfully",
       some ("MODEL REPORT" ++ methodologySection "topic"),
       some (noFilterLoopState.logs ++
         ["Generating final research report"])⟩]
  finalContexts := []

/-- An oracle whose relevance-filter response is a bare code fence: truthy
in Python, but it cleans to the empty string, so `split()[0]` raises. -/
def crashOracle : Oracle where
  evalFn := fun s => if s = "['q1']" then some (.list [.str "q1"]) else none
  initialResponse := some "['q1']"
  searchFn := fun _ => ["https://example.com/a"]
  fetchFn := fun _ => "page text"
  usefulResponse := fun _ => some "```"
  extractResponse := fun _ _ => none
  planResponse := fun _ => none
  reportResponse := none

/-- An oracle with two links whose first fetch fails (empty string) while
the second is fetched, judged useful and extracted. -/
def skipOracle : Oracle where
  evalFn := fun s => if s = "['q1']" then some (.list [.str "q1"]) else none
  initialResponse := some "['q1']"
  searchFn := fun _ => ["https://a.example", "https://b.example"]
  fetchFn := fun url => if url = "https://a.example" then "" else "content b"
  usefulResponse := fun _ => some "Yes"
  extractResponse := fun _ _ => some "- fact from b"
  planResponse := fun _ => some "<done>"
  reportResponse := some "R"

/-! ### Properties of link deduplication -/

theorem mem_linkKeys_insertLink {α : Type} (acc : List (String × α)) (q : α)
    (link l : String) :
    l ∈ linkKeys (insertLink acc q link) ↔ l ∈ linkKeys acc ∨ l = link := by
  unfold insertLink
  by_cases h : acc.any (fun p => p.1 == link) = true
  · rw [if_pos h]
    constructor
    · exact Or.inl
    · rintro (hm | rfl)
      · exact hm
      · rcases List.any_eq_true.mp h with ⟨p, hp, hpe⟩
        exact List.mem_map.mpr ⟨p, hp, (beq_iff_eq).mp hpe⟩
  · rw [if_neg h]
    simp [linkKeys]

theorem nodup_linkKeys_insertLink {α : Type} (acc : List (String × α)) (q : α)
    (link : String) (h : (linkKeys acc).Nodup) :
    (linkKeys (insertLink acc q link)).Nodup := by
  unfold insertLink
  by_cases hc : acc.any (fun p => p.1 == link) = true
  · rw [if_pos hc]; exact h
  · rw [if_neg hc]
    simp only [linkKeys, List.map_append, List.map_cons, List.map_nil]
    refine List.Nodup.append h (List.nodup_singleton link) ?_
    intro a ha hb
    rcases List.mem_singleton.mp hb with rfl
    rcases List.mem_map.mp ha with ⟨p, hp, hpl⟩
    exact hc (List.any_eq_true.mpr ⟨p, hp, (beq_iff_eq).mpr hpl⟩)

theorem lookup_eq_none_of_not_mem_linkKeys {α : Type}
    (acc : List (String × α)) (l : String) (h : l ∉ linkKeys acc) :
    List.lookup l acc = none := by
  induction acc with
  | nil => rfl
  | cons p rest ih =>
    have hne : l ≠ p.1 := fun he =>
      h (List.mem_map.mpr ⟨p, List.mem_cons_self p rest, he.symm⟩)
    have : (l == p.1) = false := beq_eq_false_iff_ne.mpr hne
    calc List.lookup l (p :: rest) = List.lookup l rest := by
          rcases p with ⟨k, v⟩
          simp only [List.lookup_cons]
          rw [show (l == k) = false from this]
      _ = none := ih fun hm => h (List.mem_cons_of_mem _ hm)

theorem lookup_append_left_of_mem {α : Type} (acc rest : List (String × α))
    (l : String) (h : l ∈ linkKeys acc) :
    List.lookup l (acc ++ rest) = List.lookup l acc := by
  induction acc with
  | nil => exact absurd h (List.not_mem_nil l)
  | cons p tl ih =>
    rcases p with ⟨k, v⟩
    by_cases he : l = k
    · subst he
      simp [List.lookup_cons]
    · have hb : (l == k) = false := beq_eq_false_iff_ne.mpr he
      have hm : l ∈ linkKeys tl := by
        rcases List.mem_map.mp h with ⟨p, hp, hpl⟩
        rcases List.mem_cons.mp hp with rfl | hp'
        · exact absurd hpl.symm he
        · exact List.mem_map.mpr ⟨p, hp', hpl⟩
      simp only [List.cons_append, List.lookup_cons, hb]
      exact ih hm

theorem lookup_insertLink_of_mem {α : Type} (acc : List (String × α)) (q : α)
    (link l : String) (h : l ∈ linkKeys acc) :
    List.lookup l (insertLink acc q link) = List.lookup l acc := by
  unfold insertLink
  by_cases hc : acc.any (fun p => p.1 == link) = true
  · rw [if_pos hc]
  · rw [if_neg hc]
    exact lookup_append_left_of_mem acc [(link, q)] l h

theorem lookup_append_singleton_self {α : Type} (acc : List (String × α))
    (q : α) (link : String) (h : link ∉ linkKeys acc) :
    List.lookup link (acc ++ [(link, q)]) = some q := by
  induction acc with
  | nil => simp [List.lookup_cons]
  | cons p tl ih =>
    rcases p with ⟨k, v⟩
    have hne : link ≠ k := fun he =>
      h (List.mem_map.mpr ⟨(k, v), List.mem_cons_self _ _, he.symm⟩)
    have hb : (link == k) = false := beq_eq_false_iff_ne.mpr hne
    simp only [List.cons_append, List.lookup_cons, hb]
    exact ih fun hm => h (List.mem_cons_of_mem _ hm)

theorem lookup_insertLink_self {α : Type} (acc : List (String × α)) (q : α)
    (link : String) (h : link ∉ linkKeys acc) :
    List.lookup link (insertLink acc q link) = some q := by
  unfold insertLink
  have hc : ¬ acc.any (fun p => p.1 == link) = true := by
    intro hany
    rcases List.any_eq_true.mp hany with ⟨p, hp, hpe⟩
    exact h (List.mem_map.mpr ⟨p, hp, (beq_iff_eq).mp hpe⟩)
  rw [if_neg hc]
  exact lookup_append_singleton_self acc q link h

theorem mem_linkKeys_addQueryLinks {α : Type} (links : List String)
    (acc : List (String × α)) (q : α) (l : String) :
    l ∈ linkKeys (addQueryLinks acc q links) ↔
      l ∈ linkKeys acc ∨ l ∈ links := by
  induction links generalizing acc with
  | nil => simp [addQueryLinks]
  | cons link rest ih =>
    show l ∈ linkKeys (addQueryLinks (insertLink acc q link) q rest) ↔ _
    rw [ih, mem_linkKeys_insertLink]
    simp only [List.mem_cons]
    tauto

theorem nodup_linkKeys_addQueryLinks {α : Type} (links : List String)
    (acc : List (String × α)) (q : α) (h : (linkKeys acc).Nodup) :
    (linkKeys (addQueryLinks acc q links)).Nodup := by
  induction links generalizing acc with
  | nil => exact h
  | cons link rest ih =>
    exact ih (insertLink acc q link) (nodup_linkKeys_insertLink acc q link h)

theorem lookup_addQueryLinks {α : Type} (links : List String)
    (acc : List (String × α)) (q : α) (l : String) :
    List.lookup l (addQueryLinks acc q links) =
      if l ∈ linkKeys acc then List.lookup l acc
      else if links.contains l then some q else none := by
  induction links generalizing acc with
  | nil =>
    show List.lookup l acc = _
    by_cases h : l ∈ linkKeys acc
    · rw [if_pos h]
    · rw [if_neg h]
      simp only [List.contains_nil, Bool.false_eq_true, if_false]
      exact lookup_eq_none_of_not_mem_linkKeys acc l h
  | cons link rest ih =>
    show List.lookup l (addQueryLinks (insertLink acc q link) q rest) = _
    rw [ih]
    by_cases hm : l ∈ linkKeys acc
    · have hm' : l ∈ linkKeys (insertLink acc q link) :=
        (mem_linkKeys_insertLink acc q link l).mpr (Or.inl hm)
      rw [if_pos hm', if_pos hm]
      exact lookup_insertLink_of_mem acc q link l hm
    · rw [if_neg hm]
      by_cases he : l = link
      · subst he
        have hm' : l ∈ linkKeys (insertLink acc q l) :=
          (mem_linkKeys_insertLink acc q l l).mpr (Or.inr rfl)
        rw [if_pos hm']
        rw [show ((l :: rest).contains l) = true from by simp [List.elem_iff]]
        simp only [if_true]
        exact lookup_insertLink_self acc q l hm
      · have hm' : l ∉ linkKeys (insertLink acc q link) := by
          rw [mem_linkKeys_insertLink]
          rintro (h | h)
          · exact hm h
          · exact he h
        rw [if_neg hm']
        have : ((link :: rest).contains l) = rest.contains l := by
          simp only [List.contains_cons]
          rw [show (l == link) = false from beq_eq_false_iff_ne.mpr he]
          simp
        rw [this]

theorem linkKeys_foldl_addQueryLinks {α : Type}
    (pairs : List (α × List String)) (acc : List (String × α)) (l : String) :
    l ∈ linkKeys (pairs.foldl (fun a p => addQueryLinks a p.1 p.2) acc) ↔
      l ∈ linkKeys acc ∨ ∃ p ∈ pairs, l ∈ p.2 := by
  induction pairs generalizing acc with
  | nil => simp
  | cons p rest ih =>
    show l ∈ linkKeys (rest.foldl _ (addQueryLinks acc p.1 p.2)) ↔ _
    rw [ih, mem_linkKeys_addQueryLinks]
    simp only [List.mem_cons]
    constructor
    · rintro ((h | h) | ⟨p', hp', hl⟩)
      · exact Or.inl h
      · exact Or.inr ⟨p, Or.inl rfl, h⟩
      · exact Or.inr ⟨p', Or.inr hp', hl⟩
    · rintro (h | ⟨p', (rfl | hp'), hl⟩)
      · exact Or.inl (Or.inl h)
      · exact Or.inl (Or.inr hl)
      · exact Or.inr ⟨p', hp', hl⟩

theorem nodup_linkKeys_foldl_addQueryLinks {α : Type}
    (pairs : List (α × List String)) (acc : List (String × α))
    (h : (linkKeys acc).Nodup) :
    (linkKeys (pairs.foldl (fun a p => addQueryLinks a p.1 p.2) acc)).Nodup := by
  induction pairs generalizing acc with
  | nil => exact h
  | cons p rest ih =>
    exact ih (addQueryLinks acc p.1 p.2)
      (nodup_linkKeys_addQueryLinks p.2 acc p.1 h)

theorem lookup_foldl_addQueryLinks {α : Type}
    (pairs : List (α × List String)) (acc : List (String × α)) (l : String) :
    List.lookup l (pairs.foldl (fun a p => addQueryLinks a p.1 p.2) acc) =
      if l ∈ linkKeys acc then List.lookup l acc
      else (pairs.find? (fun p => p.2.contains l)).map Prod.fst := by
  induction pairs generalizing acc with
  | nil =>
    show List.lookup l acc = _
    by_cases h : l ∈ linkKeys acc
    · rw [if_pos h]
    · rw [if_neg h]
      exact lookup_eq_none_of_not_mem_linkKeys acc l h
  | cons p rest ih =>
    show List.lookup l (rest.foldl _ (addQueryLinks acc p.1 p.2)) = _
    rw [ih]
    by_cases hm : l ∈ linkKeys acc
    · have hm' : l ∈ linkKeys (addQueryLinks acc p.1 p.2) :=
        (mem_linkKeys_addQueryLinks p.2 acc p.1 l).mpr (Or.inl hm)
      rw [if_pos hm', if_pos hm, lookup_addQueryLinks, if_pos hm]
    · rw [if_neg hm]
      by_cases hl : p.2.contains l = true
      · have hm' : l ∈ linkKeys (addQueryLinks acc p.1 p.2) :=
          (mem_linkKeys_addQueryLinks p.2 acc p.1 l).mpr
            (Or.inr (List.elem_iff.mp hl))
        rw [if_pos hm', lookup_addQueryLinks, if_neg hm, if_pos hl,
          List.find?_cons, hl]
        rfl
      · have hm' : l ∉ linkKeys (addQueryLinks acc p.1 p.2) := by
          rw [mem_linkKeys_addQueryLinks]
          rintro (h | h)
          · exact hm h
          · exact hl (List.elem_iff.mpr h)
        rw [if_neg hm', List.find?_cons,
          show (p.2.contains l) = false from Bool.eq_false_iff.mpr hl]

/-- C2: for every collection of per-query search-result lists in one
iteration, the deduplication step keeps exactly one entry per distinct URL —
its retained keys are duplicate-free and are exactly the URLs occurring in
some result list — and each retained URL is attributed to the first query
(in query order) whose result list contained it. -/
theorem unique_links_dedup_first_query {α : Type}
    (pairs : List (α × List String)) :
    (linkKeys (unique_links pairs)).Nodup
    ∧ (∀ l, l ∈ linkKeys (unique_links pairs) ↔ ∃ p ∈ pairs, l ∈ p.2)
    ∧ (∀ l, List.lookup l (unique_links pairs) =
        (pairs.find? (fun p => p.2.contains l)).map Prod.fst) := by
  refine ⟨?_, ?_, ?_⟩
  · exact nodup_linkKeys_foldl_addQueryLinks pairs [] List.nodup_nil
  · intro l
    rw [show unique_links pairs =
        pairs.foldl (fun a p => addQueryLinks a p.1 p.2) [] from rfl,
      linkKeys_foldl_addQueryLinks]
    simp [linkKeys]
  · intro l
    rw [show unique_links pairs =
        pairs.foldl (fun a p => addQueryLinks a p.1 p.2) [] from rfl,
      lookup_foldl_addQueryLinks]
    simp [linkKeys]

example : unique_links [("q1", ["u1", "u2"]), ("q2", ["u2", "u3"])] =
    [("u1", "q1"), ("u2", "q1"), ("u3", "q2")] := by decide

/-! ### Effect lemmas for the orchestrator layers -/

theorem iterEvents_append (a b : List Event) :
    iterEvents (a ++ b) = iterEvents a + iterEvents b := by
  simp [iterEvents, List.filter_append]

theorem linkEffect_refl (s : RState) : LinkEffect s s :=
  ⟨⟨[], by simp, by simp, by simp⟩, rfl, rfl⟩

theorem linkEffect_trans {s t u : RState} (h1 : LinkEffect s t)
    (h2 : LinkEffect t u) : LinkEffect s u := by
  obtain ⟨⟨es1, he1, hl1, hg1⟩, hc1, hq1⟩ := h1
  obtain ⟨⟨es2, he2, hl2, hg2⟩, hc2, hq2⟩ := h2
  refine ⟨⟨es1 ++ es2, ?_, ?_, ?_⟩, hc2.trans hc1, hq2.trans hq1⟩
  · rw [he2, he1, List.append_assoc]
  · rw [hl2, hl1, List.map_append, List.append_assoc]
  · intro e he
    rcases List.mem_append.mp he with h | h
    · exact hg1 e h
    · exact hg2 e h

theorem processLink_effect {o : Oracle} {link : String} {q : PyVal}
    {s : RState} {ctxs : List String} {s' : RState} {ctxs' : List String}
    (h : processLink o link q s ctxs = .ok (s', ctxs')) :
    LinkEffect s s' ∧ ∃ add, ctxs' = ctxs ++ add := by
  simp only [processLink] at h
  split at h
  · obtain ⟨rfl, rfl⟩ := Prod.mk.injEq .. ▸ Except.ok.inj h
    exact ⟨⟨⟨[⟨"processing", "Processing: " ++ link, none, none⟩,
      ⟨"warning", "No content retrieved from " ++ link, none, none⟩],
      by simp [sendStatus], by simp [sendStatus],
      by intro e he; fin_cases he <;> refine ⟨by simp, by simp, by simp⟩⟩,
      by simp [sendStatus], by simp [sendStatus]⟩, [], by simp⟩
  · split at h
    · exact absurd h (by simp)
    · rename_i usefulness _
      split at h
      · split at h
        · rename_i context _
          obtain ⟨rfl, rfl⟩ := Prod.mk.injEq .. ▸ Except.ok.inj h
          refine ⟨⟨⟨[⟨"processing", "Processing: " ++ link, none, none⟩,
            ⟨"evaluation", "Page usefulness: " ++ usefulness, none, none⟩,
            ⟨"context", "Extracted context (preview): " ++
              pySlice context 0 100 ++ "...", none, none⟩],
            by simp [sendStatus], by simp [sendStatus],
      by intro e he; fin_cases he <;> refine ⟨by simp, by simp, by simp⟩⟩,
            by simp [sendStatus], by simp [sendStatus]⟩, [context], rfl⟩
        · obtain ⟨rfl, rfl⟩ := Prod.mk.injEq .. ▸ Except.ok.inj h
          refine ⟨⟨⟨[⟨"processing", "Processing: " ++ link, none, none⟩,
            ⟨"evaluation", "Page usefulness: " ++ usefulness, none, none⟩],
            by simp [sendStatus], by simp [sendStatus],
      by intro e he; fin_cases he <;> refine ⟨by simp, by simp, by simp⟩⟩,
            by simp [sendStatus], by simp [sendStatus]⟩, [], by simp⟩
      · obtain ⟨rfl, rfl⟩ := Prod.mk.injEq .. ▸ Except.ok.inj h
        refine ⟨⟨⟨[⟨"processing", "Processing: " ++ link, none, none⟩,
          ⟨"evaluation", "Page usefulness: " ++ usefulness, none, none⟩],
          by simp [sendStatus], by simp [sendStatus],
      by intro e he; fin_cases he <;> refine ⟨by simp, by simp, by simp⟩⟩,
          by simp [sendStatus], by simp [sendStatus]⟩, [], by simp⟩

theorem processLinks_effect {o : Oracle} {links : List (String × PyVal)}
    {s : RState} {ctxs : List String} {s' : RState} {ctxs' : List String}
    (h : processLinks o links s ctxs = .ok (s', ctxs')) :
    LinkEffect s s' ∧ ∃ add, ctxs' = ctxs ++ add := by
  induction links generalizing s ctxs with
  | nil =>
    obtain ⟨rfl, rfl⟩ := Prod.mk.injEq .. ▸ Except.ok.inj h
    exact ⟨linkEffect_refl s, [], by simp⟩
  | cons p rest ih =>
    rcases p with ⟨link, q⟩
    cases hpl : processLink o link q s ctxs with
    | error e =>
      simp only [processLinks, hpl] at h
      exact absurd h (by simp)
    | ok pr =>
      rcases pr with ⟨s1, ctxs1⟩
      simp only [processLinks, hpl] at h
      obtain ⟨h1, add1, rfl⟩ := processLink_effect hpl
      obtain ⟨h2, add2, rfl⟩ := ih h
      exact ⟨linkEffect_trans h1 h2, add1 ++ add2, by simp⟩

theorem stepEffect_refl (s : RState) : StepEffect 0 s s :=
  ⟨⟨[], by simp, by simp, by simp, by simp [iterEvents]⟩,
    List.prefix_rfl, List.prefix_rfl⟩

theorem stepEffect_trans {k1 k2 : Nat} {s t u : RState}
    (h1 : StepEffect k1 s t) (h2 : StepEffect k2 t u) :
    StepEffect (k1 + k2) s u := by
  obtain ⟨⟨es1, he1, hl1, hg1, hi1⟩, hc1, hq1⟩ := h1
  obtain ⟨⟨es2, he2, hl2, hg2, hi2⟩, hc2, hq2⟩ := h2
  refine ⟨⟨es1 ++ es2, ?_, ?_, ?_, ?_⟩, hc1.trans hc2, hq1.trans hq2⟩
  · rw [he2, he1, List.append_assoc]
  · rw [hl2, hl1, List.map_append, List.append_assoc]
  · intro e he
    rcases List.mem_append.mp he with h | h
    · exact hg1 e h
    · exact hg2 e h
  · rw [iterEvents_append, hi1, hi2]

theorem sendStatus_step (t m : String) (s : RState) (h1 : t ≠ "complete")
    (h2 : t ≠ "error") (k : Nat)
    (hk : iterEvents [⟨t, m, none, none⟩] = k) :
    StepEffect k s (sendStatus t m s) := by
  refine ⟨⟨[⟨t, m, none, none⟩], by simp [sendStatus], by simp [sendStatus],
    ?_, hk⟩, ?_, ?_⟩
  · intro e he
    rcases List.mem_singleton.mp he with rfl
    exact ⟨h1, h2⟩
  · simp [sendStatus]
  · simp [sendStatus]

theorem linkEffect_step {s s' : RState} (h : LinkEffect s s') :
    StepEffect 0 s s' := by
  obtain ⟨⟨es, he, hl, hg⟩, hc, hq⟩ := h
  refine ⟨⟨es, he, hl, fun e hm => ⟨(hg e hm).1, (hg e hm).2.1⟩, ?_⟩,
    hc ▸ List.prefix_rfl, hq ▸ List.prefix_rfl⟩
  have : es.filter (fun e => e.type == "iteration") = [] := by
    refine List.filter_eq_nil_iff.mpr ?_
    intro e hm hb
    exact (hg e hm).2.2 ((beq_iff_eq).mp hb)
  simp [iterEvents, this]

theorem extendContexts_step (s : RState) (cs : List String) :
    StepEffect 0 s { s with contexts := s.contexts ++ cs } :=
  ⟨⟨[], by simp, by simp, by simp, by simp [iterEvents]⟩,
    ⟨cs, rfl⟩, List.prefix_rfl⟩

theorem extendQueries_step (s : RState) (qs : List PyVal) :
    StepEffect 0 s { s with allQueries := s.allQueries ++ qs } :=
  ⟨⟨[], by simp, by simp, by simp, by simp [iterEvents]⟩,
    List.prefix_rfl, ⟨qs, rfl⟩⟩

theorem mergeContexts_step (s4 : RState) (iterCtxs : List String) :
    StepEffect 0 s4
      (if iterCtxs.isEmpty then
        sendStatus "warning" "No useful contexts found in this iteration" s4
      else
        sendStatus "progress"
          ("Added " ++ toString iterCtxs.length ++ " new contexts")
          { s4 with contexts := s4.contexts ++ iterCtxs }) := by
  by_cases hie : iterCtxs.isEmpty
  · rw [if_pos hie]
    exact sendStatus_step _ _ _ (by decide) (by decide) 0 (by simp [iterEvents])
  · rw [if_neg hie]
    exact stepEffect_trans (extendContexts_step s4 iterCtxs)
      (sendStatus_step _ _ _ (by decide) (by decide) 0 (by simp [iterEvents]))

theorem iterationBody_effect {o : Oracle} {qs : List PyVal} {i : Nat}
    {s s' : RState} {cont : Option (List PyVal)}
    (h : iterationBody o qs i s = .ok (s', cont)) :
    StepEffect 1 s s' := by
  simp only [iterationBody] at h
  have step3 : StepEffect 1 s (sendStatus "links"
      ("Found " ++ toString (unique_links (qs.zip (qs.map o.searchFn))).length
        ++ " unique links")
      (sendStatus "progress" "Executing search queries in parallel"
        (sendStatus "iteration"
          ("\n=== Iteration " ++ toString (i + 1) ++ " ===") s))) :=
    stepEffect_trans (stepEffect_trans
      (sendStatus_step "iteration" _ s (by decide) (by decide) 1
        (by simp [iterEvents]))
      (sendStatus_step "progress" _ _ (by decide) (by decide) 0
        (by simp [iterEvents])))
      (sendStatus_step "links" _ _ (by decide) (by decide) 0
        (by simp [iterEvents]))
  split at h
  · exact absurd h (by simp)
  · rename_i s4 iterCtxs hpl
    obtain ⟨hle, _⟩ := processLinks_effect hpl
    split at h
    · obtain ⟨rfl, rfl⟩ := Prod.mk.injEq .. ▸ Except.ok.inj h
      exact stepEffect_trans (stepEffect_trans
        (stepEffect_trans step3 (linkEffect_step hle))
        (mergeContexts_step s4 iterCtxs))
        (sendStatus_step _ _ _ (by decide) (by decide) 0
          (by simp [iterEvents]))
    · obtain ⟨rfl, rfl⟩ := Prod.mk.injEq .. ▸ Except.ok.inj h
      exact stepEffect_trans (stepEffect_trans
        (stepEffect_trans step3 (linkEffect_step hle))
        (mergeContexts_step s4 iterCtxs))
        (sendStatus_step _ _ _ (by decide) (by decide) 0
          (by simp [iterEvents]))
    · rename_i qs2 hne hplan
      obtain ⟨rfl, rfl⟩ := Prod.mk.injEq .. ▸ Except.ok.inj h
      exact stepEffect_trans (stepEffect_trans (stepEffect_trans
        (stepEffect_trans step3 (linkEffect_step hle))
        (mergeContexts_step s4 iterCtxs))
        (extendQueries_step _ qs2))
        (sendStatus_step _ _ _ (by decide) (by decide) 0
          (by simp [iterEvents]))

theorem researchLoop_effect {o : Oracle} {qs : List PyVal} {i : Nat}
    {s : RState} {n : Nat} {s' : RState}
    (h : researchLoop o qs i s n = .ok s') :
    ∃ k, StepEffect k s s' ∧ k ≤ n ∧ (1 ≤ n → 1 ≤ k) := by
  induction n generalizing qs i s with
  | zero =>
    simp only [researchLoop, Except.ok.injEq] at h
    subst h
    exact ⟨0, stepEffect_refl s, Nat.le_refl 0, fun h1 => absurd h1 (by omega)⟩
  | succ rem ih =>
    simp only [researchLoop] at h
    split at h
    · exact absurd h (by simp)
    · rename_i s1 hib
      obtain rfl := Except.ok.inj h
      exact ⟨1, iterationBody_effect hib, by omega, fun _ => Nat.le_refl 1⟩
    · rename_i s1 qs2 hib
      obtain ⟨k, hk, hkle, _⟩ := ih h
      exact ⟨1 + k, stepEffect_trans (iterationBody_effect hib) hk, by omega, by omega⟩

example : generate_search_queries
    (fun s => if s = "['a', 'b']" then some (.list [.str "a", .str "b"]) else none)
    (some "```python\n['a', 'b']\n```") = ["a", "b"] := by decide

example : generate_search_queries (fun _ => none) (some "no list here") = [] := by
  decide

example : get_new_search_queries (fun _ => none) (some "<done>") = none := rfl

example : is_page_useful (some "```") = Except.error () := rfl

example : is_page_useful (some " No , irrelevant.") = Except.ok "No" := rfl

example : is_page_useful none = Except.ok "Yes" := rfl

/-- Every successful `research` call either took the fatal
no-initial-queries branch or ran the loop from `initState` and finished
with `finishResult`. -/
theorem research_ok_cases {o : Oracle} {uq : String} {m : Nat}
    {res : ResearchResult} (h : research o uq m = .ok res) :
    (generate_search_queries o.evalFn o.initialResponse = [] ∧
      res = failureResult uq) ∨
    (generate_search_queries o.evalFn o.initialResponse ≠ [] ∧
      ∃ s, researchLoop o
          ((generate_search_queries o.evalFn o.initialResponse).map PyVal.str)
          0 (initState uq (generate_search_queries o.evalFn o.initialResponse))
          m = .ok s ∧
        res = finishResult o uq s) := by
  simp only [research] at h
  split at h
  · rename_i he
    exact Or.inl ⟨List.isEmpty_iff.mp he, (Except.ok.inj h).symm⟩
  · rename_i he
    split at h
    · exact absurd h (by simp)
    · rename_i s hs
      refine Or.inr ⟨fun hq => ?_, s, hs, (Except.ok.inj h).symm⟩
      rw [hq] at he
      exact he rfl

/-! ## Claim theorems: the research loop invariants -/

/-- C7: across all iterations of a research session the contexts sequence
and the query memory only grow: over any successful span of the research
loop, and over any single iteration, the earlier `contexts` is a prefix of
the later one (order-preserving append, so its length is non-decreasing and
no element is removed or reordered), and likewise for `all_queries`. -/
theorem contexts_and_queries_only_grow {o : Oracle} {qs : List PyVal}
    {i n : Nat} {s s' : RState} {cont : Option (List PyVal)} :
    (researchLoop o qs i s n = .ok s' →
      s.contexts <+: s'.contexts ∧ s.contexts.length ≤ s'.contexts.length ∧
      s.allQueries <+: s'.allQueries)
    ∧ (iterationBody o qs i s = .ok (s', cont) →
      s.contexts <+: s'.contexts ∧ s.contexts.length ≤ s'.contexts.length ∧
      s.allQueries <+: s'.allQueries) := by
  constructor
  · intro h
    obtain ⟨k, hk, _, _⟩ := researchLoop_effect h
    exact ⟨hk.2.1, hk.2.1.length_le, hk.2.2⟩
  · intro h
    have hk := iterationBody_effect h
    exact ⟨hk.2.1, hk.2.1.length_le, hk.2.2⟩

/-- C8: counted by the one `iteration` event emitted at the start of each
pass, a successful research run executes at most `maxIterations` iterations
whatever the planner answers, and with `maxIterations = 1` and a non-empty
initial query list it executes exactly one search→filter→extract pass
before the report is produced. -/
theorem research_iteration_cap {o : Oracle} {uq : String} {m : Nat}
    {res : ResearchResult} (h : research o uq m = .ok res) :
    iterEvents res.events ≤ m ∧
      (m = 1 → generate_search_queries o.evalFn o.initialResponse ≠ [] →
        iterEvents res.events = 1) := by
  rcases research_ok_cases h with ⟨hq, rfl⟩ | ⟨hq, s, hs, rfl⟩
  · constructor
    · have : iterEvents (failureResult uq).events = 0 := rfl
      omega
    · intro _ hne
      exact absurd hq hne
  · obtain ⟨k, ⟨⟨es, hev, _, _, hies⟩, _, _⟩, hkle, hk1⟩ :=
      researchLoop_effect hs
    have h1 : iterEvents (finishResult o uq s).events =
        iterEvents s.events := by
      simp [finishResult, sendStatus, iterEvents, List.filter_append]
    have h2 : iterEvents s.events = k := by
      rw [hev, iterEvents_append,
        show iterEvents (initState uq
          (generate_search_queries o.evalFn o.initialResponse)).events = 0
          from rfl, hies]
      omega
    refine ⟨by omega, fun hm _ => ?_⟩
    subst hm
    have := hk1 (by omega)
    omega

/-- C3: when initial query generation yields no queries, `research` returns
(without raising) the fixed failure report whose log ends in the failure
message and whose event stream contains an `error`-tagged event; and this is
the only fatal condition — a successful run emits an `error` event exactly
when the initial query list was empty. -/
theorem no_initial_queries_only_fatal (o : Oracle) (uq : String) (m : Nat) :
    (generate_search_queries o.evalFn o.initialResponse = [] →
      research o uq m = .ok (failureResult uq)
      ∧ (failureResult uq).report = "Research failed: " ++ failureMessage
      ∧ (failureResult uq).logs =
          ["Starting research: " ++ uq,
           "Generating initial search queries...", failureMessage]
      ∧ ∃ e ∈ (failureResult uq).events, e.type = "error")
    ∧ (∀ res, research o uq m = .ok res →
        ((∃ e ∈ res.events, e.type = "error") ↔
          generate_search_queries o.evalFn o.initialResponse = [])) := by
  constructor
  · intro hq
    refine ⟨?_, rfl, rfl,
      ⟨⟨"error", failureMessage, none, none⟩,
        by simp [failureResult, preQueryState, sendStatus], rfl⟩⟩
    simp only [research, hq]
    rfl
  · intro res hres
    rcases research_ok_cases hres with ⟨hq, rfl⟩ | ⟨hq, s, hs, rfl⟩
    · simp only [hq, iff_true]
      exact ⟨⟨"error", failureMessage, none, none⟩,
        by simp [failureResult, preQueryState, sendStatus], rfl⟩
    · constructor
      · rintro ⟨e, he, het⟩
        exfalso
        obtain ⟨k, ⟨⟨es, hev, _, hgood, _⟩, _, _⟩, _, _⟩ :=
          researchLoop_effect hs
        rw [show (finishResult o uq s).events =
            (s.events ++
              [⟨"progress", "Generating final research report", none, none⟩])
            ++ [⟨"complete", "Research completed successfully",
                some (generate_final_report uq o.reportResponse),
                some (s.logs ++ ["Generating final research report"])⟩]
          from rfl] at he
        rw [hev] at he
        simp only [List.mem_append, List.mem_singleton] at he
        rcases he with ((hin | hes) | rfl) | rfl
        · simp [initState, preQueryState, sendStatus] at hin
          rcases hin with rfl | rfl | rfl <;> simp at het
        · exact (hgood e hes).2 het
        · simp at het
        · simp at het
      · intro hq2
        exact absurd hq2 hq

/-- C9 (amended): the returned logs are, in emission order, the messages of
every emitted event except the final `complete` event, whose message is put
on the queue but never appended to the log; every `complete` event in the
stream carries exactly the report and the logs that the call returns. -/
theorem logs_replay_event_stream {o : Oracle} {uq : String} {m : Nat}
    {res : ResearchResult} (h : research o uq m = .ok res) :
    res.logs =
      (res.events.filter (fun e => e.type != "complete")).map Event.message
    ∧ ∀ e ∈ res.events, e.type = "complete" →
        e.reportField = some res.report ∧ e.logsField = some res.logs := by
  rcases research_ok_cases h with ⟨hq, rfl⟩ | ⟨hq, s, hs, rfl⟩
  · constructor
    · rfl
    · rintro e he het
      exfalso
      simp [failureResult, preQueryState, sendStatus] at he
      rcases he with rfl | rfl | rfl <;> simp at het
  · obtain ⟨k, ⟨⟨es, hev, hlog, hgood, _⟩, _, _⟩, _, _⟩ :=
      researchLoop_effect hs
    have hnc : ∀ e ∈ s.events, e.type ≠ "complete" := by
      intro e he
      rw [hev] at he
      rcases List.mem_append.mp he with hin | hes
      · simp [initState, preQueryState, sendStatus] at hin
        rcases hin with rfl | rfl | rfl <;> simp
      · exact (hgood e hes).1
    have hsfilter : s.events.filter (fun e => e.type != "complete") =
        s.events :=
      List.filter_eq_self.mpr fun e he => bne_iff_ne.mpr (hnc e he)
    have hslogs : s.logs = s.events.map Event.message := by
      rw [hev, hlog, List.map_append]
      rfl
    have hevshape : (finishResult o uq s).events =
        (s.events ++
          [⟨"progress", "Generating final research report", none, none⟩])
        ++ [⟨"complete", "Research completed successfully",
            some (generate_final_report uq o.reportResponse),
            some (s.logs ++ ["Generating final research report"])⟩] := rfl
    constructor
    · rw [show (finishResult o uq s).logs =
          s.logs ++ ["Generating final research report"] from rfl,
        hevshape, List.filter_append, List.filter_append, hsfilter]
      rw [show List.filter (fun e => e.type != "complete")
          [(⟨"progress", "Generating final research report", none,
            none⟩ : Event)] =
          [⟨"progress", "Generating final research report", none, none⟩]
          from rfl]
      rw [show List.filter (fun e => e.type != "complete")
          [(⟨"complete", "Research completed successfully",
            some (generate_final_report uq o.reportResponse),
            some (s.logs ++ ["Generating final research report"])⟩ :
              Event)] = [] from rfl]
      rw [List.append_nil, List.map_append, hslogs]
      rfl
    · rintro e he het
      rw [hevshape] at he
      rcases List.mem_append.mp he with he2 | hce
      · rcases List.mem_append.mp he2 with hse | hpe
        · exact absurd het (hnc e hse)
        · rcases List.mem_singleton.mp hpe with rfl
          simp at het
      · rcases List.mem_singleton.mp hce with rfl
        exact ⟨rfl, rfl⟩

/-- C1 (amended): report synthesis never skips the completion-capability
call — on every successful run that enters the loop the report equals
`generate_final_report` applied to the synthesis response, even when the
accumulated contexts are empty; the fixed "insufficient research findings"
sentence is produced exactly when that completion call fails, while a
successful call yields its text plus the methodology section. -/
theorem report_always_consults_completion {o : Oracle} {uq : String}
    {m : Nat} {res : ResearchResult} (h : research o uq m = .ok res)
    (hne : generate_search_queries o.evalFn o.initialResponse ≠ []) :
    res.report = generate_final_report uq o.reportResponse
    ∧ (call_llm o.reportResponse = none →
        res.report =
          "Unable to generate report due to insufficient research findings.")
    ∧ (∀ r, call_llm o.reportResponse = some r →
        res.report = r ++ methodologySection uq) := by
  rcases research_ok_cases h with ⟨hq, rfl⟩ | ⟨hq, s, hs, rfl⟩
  · exact absurd hq hne
  · refine ⟨rfl, fun hn => ?_, fun r hr => ?_⟩
    · show generate_final_report uq o.reportResponse = _
      simp [generate_final_report, hn]
    · show generate_final_report uq o.reportResponse = _
      simp [generate_final_report, hr]

/-! ## Claim theorems: planner parsing and report synthesis -/

/-- C4 counterexample: the continuation planner call does not trim to 4 — a
parsed five-element list is returned whole, refuting "every planner
query-generation call returns at most 4 query strings". -/
theorem continuation_query_call_not_trimmed :
    (get_new_search_queries fiveEval (some "['a','b','c','d','e']")).map
      List.length = some 5 := rfl

/-- C4 (amended): the initial query-generation call returns at most 4
queries, trimming the parsed list to its first 4 — in particular the
five-element response yields exactly the first four — while the
continuation call returns the parsed list untrimmed. -/
theorem initial_queries_trimmed_to_four
    (evalFn : String → Option PyVal) (response : Option String) :
    (generate_search_queries evalFn response).length ≤ 4
    ∧ generate_search_queries fiveEval (some "['a','b','c','d','e']") =
        ["a", "b", "c", "d"] := by
  refine ⟨?_, by decide⟩
  unfold generate_search_queries
  repeat' split
  all_goals simp [List.length_take]

/-- C5: in the continuation step the `<done>` sentinel yields the `None`
completion signal, while a failed call, an `eval` failure, a non-list
result or an empty parsed list all yield the empty sequence; the
orchestrator treats the two identically — whenever the planner result is
`None` or the empty sequence the iteration reports no continuation and the
loop returns at once, proceeding to report generation with no retry. -/
theorem malformed_planner_output_exits_loop :
    (∀ evalFn r, r ≠ "" → clean_llm_response r = "<done>" →
      get_new_search_queries evalFn (some r) = none)
    ∧ (∀ evalFn, get_new_search_queries evalFn none = some [])
    ∧ (∀ evalFn r, r ≠ "" → clean_llm_response r ≠ "<done>" →
        evalFn (clean_llm_response r) = none →
        get_new_search_queries evalFn (some r) = some [])
    ∧ (∀ evalFn r v, r ≠ "" → clean_llm_response r ≠ "<done>" →
        evalFn (clean_llm_response r) = some v →
        (∀ l, v ≠ PyVal.list l) →
        get_new_search_queries evalFn (some r) = some [])
    ∧ (∀ evalFn r, r ≠ "" → clean_llm_response r ≠ "<done>" →
        evalFn (clean_llm_response r) = some (PyVal.list []) →
        get_new_search_queries evalFn (some r) = some [])
    ∧ (∀ (o : Oracle) (qs : List PyVal) (i : Nat) (s s' : RState)
        (cont : Option (List PyVal)),
        iterationBody o qs i s = .ok (s', cont) →
        (get_new_search_queries o.evalFn (o.planResponse i) = none ∨
          get_new_search_queries o.evalFn (o.planResponse i) = some []) →
        cont = none)
    ∧ (∀ (o : Oracle) (qs : List PyVal) (i rem : Nat) (s s' : RState),
        iterationBody o qs i s = .ok (s', none) →
        researchLoop o qs i s (rem + 1) = .ok s') := by
  refine ⟨?_, ?_, ?_, ?_, ?_, ?_, ?_⟩
  · intro evalFn r hr hdone
    simp [get_new_search_queries, call_llm, hr, hdone]
  · intro evalFn
    rfl
  · intro evalFn r hr hdone hev
    simp [get_new_search_queries, call_llm, hr, hdone, hev]
  · intro evalFn r v hr hdone hev hvl
    rcases v with s | l | _
    · simp [get_new_search_queries, call_llm, hr, hdone, hev]
    · exact absurd rfl (hvl l)
    · simp [get_new_search_queries, call_llm, hr, hdone, hev]
  · intro evalFn r hr hdone hev
    simp [get_new_search_queries, call_llm, hr, hdone, hev]
  · intro o qs i s s' cont hib hfalsy
    simp only [iterationBody] at hib
    split at hib
    · exact absurd hib (by simp)
    · split at hib
      · obtain ⟨-, h2⟩ := Prod.mk.injEq .. ▸ Except.ok.inj hib
        exact h2.symm
      · obtain ⟨-, h2⟩ := Prod.mk.injEq .. ▸ Except.ok.inj hib
        exact h2.symm
      · rename_i qs2 hne hplan
        rcases hfalsy with hf | hf
        · rw [hplan] at hf
          exact absurd hf (by simp)
        · rw [hplan] at hf
          exact absurd (Option.some.inj hf) hne
  · intro o qs i rem s s' hib
    simp only [researchLoop, hib]

/-- C10: when the completion capability returns non-empty text the final
report is exactly that text with the methodology section appended, and when
the call fails (`None`, or empty text, which `call_llm` maps to `None`) the
report is exactly the fixed fallback sentence with nothing appended; the
methodology section is non-empty, so the report is never the model's output
alone. -/
theorem final_report_text_plus_methodology (uq : String) :
    generate_final_report uq none =
      "Unable to generate report due to insufficient research findings."
    ∧ generate_final_report uq (some "") =
      "Unable to generate report due to insufficient research findings."
    ∧ (∀ r, r ≠ "" → generate_final_report uq (some r) =
        r ++ methodologySection uq)
    ∧ 0 < (methodologySection uq).length := by
  refine ⟨rfl, rfl, fun r hr => ?_, ?_⟩
  · simp [generate_final_report, call_llm, hr]
  · have h1 : 0 < ("\n\n## Research Methodology\n" : String).length := by
      decide
    simp only [methodologySection, String.length_append]
    omega

/-! ## Concrete runs: oracles, counterexamples and witnesses -/

example : research noFilterOracle "topic" 1 = .ok noFilterResult := rfl

example : researchLoop noFilterOracle [PyVal.str "q1"] 0
    (initState "topic" ["q1"]) 1 = .ok noFilterLoopState := rfl

/-- C1 counterexample: with a relevance filter that always answers "No" the
final contexts are empty, yet the report is the synthesis model's text plus
the methodology section — not the fixed "insufficient information"
message, because the completion call is not skipped. -/
theorem empty_contexts_still_call_completion :
    (research noFilterOracle "topic" 1).map
        (fun r => (r.finalContexts, r.report)) =
      .ok ([], "MODEL REPORT" ++ methodologySection "topic")
    ∧ "MODEL REPORT" ++ methodologySection "topic" ≠
      "Unable to generate report due to insufficient research findings." :=
  ⟨rfl, by decide⟩

/-- C9 counterexample: on a successful run with an event sink, the returned
logs do NOT equal the messages of every emitted event — the final
`complete` event's message is never appended to the log. -/
theorem complete_event_message_not_logged :
    (research noFilterOracle "topic" 1).map
      (fun r => r.logs == r.events.map Event.message) = .ok false := rfl

/-- C6: a fetch failure on the first of two links indeed does not prevent
the second from being processed and extracted — but the per-link boundary is
not exception-safe: a relevance-filter response consisting only of a code
fence makes `is_page_useful` raise an uncaught `IndexError` (`split()[0]` on
an empty token list) that escapes the whole orchestrator. -/
theorem filter_crash_escapes_orchestrator :
    (research skipOracle "topic" 1).map (fun r => r.finalContexts) =
      .ok ["- fact from b"]
    ∧ is_page_useful (some "```") = .error ()
    ∧ research crashOracle "topic" 1 = .error () :=
  ⟨rfl, rfl, rfl⟩

/-! ## Witnesses -/

theorem contexts_and_queries_only_grow_witness :
    (initState "topic" ["q1"]).contexts <+: noFilterLoopState.contexts
    ∧ (initState "topic" ["q1"]).contexts.length ≤
        noFilterLoopState.contexts.length
    ∧ (initState "topic" ["q1"]).allQueries <+:
        noFilterLoopState.allQueries :=
  (@contexts_and_queries_only_grow noFilterOracle [PyVal.str "q1"] 0 1
    (initState "topic" ["q1"]) noFilterLoopState none).1 rfl

theorem research_iteration_cap_witness :
    iterEvents noFilterResult.events ≤ 1
    ∧ iterEvents noFilterResult.events = 1 :=
  ⟨(research_iteration_cap
      (show research noFilterOracle "topic" 1 = .ok noFilterResult
        from rfl)).1,
   (research_iteration_cap
      (show research noFilterOracle "topic" 1 = .ok noFilterResult
        from rfl)).2 rfl (by decide)⟩

theorem no_initial_queries_only_fatal_witness :
    research nullOracle "q" 2 = .ok (failureResult "q")
    ∧ ((∃ e ∈ (failureResult "q").events, e.type = "error") ↔
        generate_search_queries nullOracle.evalFn nullOracle.initialResponse
          = []) :=
  ⟨((no_initial_queries_only_fatal nullOracle "q" 2).1 rfl).1,
   (no_initial_queries_only_fatal nullOracle "q" 2).2 (failureResult "q")
     ((no_initial_queries_only_fatal nullOracle "q" 2).1 rfl).1⟩

theorem logs_replay_event_stream_witness :
    noFilterResult.logs =
      (noFilterResult.events.filter
        (fun e => e.type != "complete")).map Event.message
    ∧ ∀ e ∈ noFilterResult.events, e.type = "complete" →
        e.reportField = some noFilterResult.report ∧
        e.logsField = some noFilterResult.logs :=
  logs_replay_event_stream
    (show research noFilterOracle "topic" 1 = .ok noFilterResult from rfl)

theorem report_always_consults_completion_witness :
    noFilterResult.report =
      generate_final_report "topic" noFilterOracle.reportResponse
    ∧ noFilterResult.report = "MODEL REPORT" ++ methodologySection "topic" :=
  ⟨(report_always_consults_completion
      (show research noFilterOracle "topic" 1 = .ok noFilterResult from rfl)
      (by decide)).1,
   (report_always_consults_completion
      (show research noFilterOracle "topic" 1 = .ok noFilterResult from rfl)
      (by decide)).2.2 "MODEL REPORT" rfl⟩

theorem malformed_planner_output_exits_loop_witness :
    get_new_search_queries fiveEval (some "<done>") = none
    ∧ get_new_search_queries fiveEval (some "garbage") = some [] :=
  ⟨malformed_planner_output_exits_loop.1 fiveEval "<done>"
      (by decide) (by decide),
   malformed_planner_output_exits_loop.2.2.1 fiveEval "garbage"
      (by decide) (by decide) rfl⟩

theorem final_report_text_plus_methodology_witness :
    generate_final_report "q" (some "X") = "X" ++ methodologySection "q" :=
  (final_report_text_plus_methodology "q").2.2.1 "X" (by decide)
